import Mathlib

/-!
Formal model of RmSkinInstaller (src/main.rs), a command-line Rainmeter skin
installer.  The pure logic of the program (archive-entry classification, the
raw `Variables`-section scanner, the recursive merge-copy, the backup loop,
the dual-encoding ini reader and the `main` pipeline's control flow) is
embedded shallowly: file-system trees become an inductive `Tree`, paths become
lists of characters, and the stage sequencing of `main` becomes a function
from stage outcomes to the executed stage list.  Operating-system calls whose
behaviour the program relies on (`GetPrivateProfileSectionW`,
`WritePrivateProfileStringW`) are modelled from their documented contracts and
marked as such.
-/

namespace RmSkinInstaller

/-- Path and name strings are modelled as lists of characters. -/
abbrev Str := List Char

/-- The separator `std::path::MAIN_SEPARATOR` that `parse_zip_item` and the
plugin-name extraction split archive paths on (`\` on Windows). -/
def mainSeparator : Char := '\\'

/-- Model of Rust's `Path::extension().unwrap_or("")` for a single path
component (the program only applies it to separator-free segments): the
portion of the name after the last `.`, empty when there is no `.` or when
the only `.` is the leading character (hidden-file rule).  Archive entries
with `.` or `..` components are rejected by `enclosed_name` before this
function is reached. -/
def extensionOf (s : Str) : Str :=
  let r := s.reverse
  let ext := r.takeWhile (fun c => c ≠ '.')
  if ext.length = r.length then []
  else if ext.length + 1 = r.length then []
  else ext.reverse

/-- Model of `parse_zip_item` (src/main.rs:711-739): split the archive path on
the separator; with more than two segments the first segment is the component
and the second the name, with exactly two segments the name is the first
segment, with one segment the name is that segment; the extension comes from
the last segment (or second segment in the two-segment case). -/
def parse_zip_item (item : Str) : Str × Str × Str :=
  let split := item.splitOn mainSeparator
  if 2 < split.length then
    (split.getD 0 [], split.getD 1 [], extensionOf (split.getLastD []))
  else if 1 < split.length then
    ([], split.getD 0 [], extensionOf (split.getD 1 []))
  else if 0 < split.length then
    ([], split.getD 0 [], [])
  else
    ([], [], [])

/-! ## Raw `Variables`-section reader (`read_win_ini`, src/main.rs:744-780)

The program fills a `SHRT_MAX`-sized zero-initialised `u16` buffer through
`GetPrivateProfileSectionW` and then scans it: every `=` ends the current key
(pushed with an appended terminator), every NUL ends the current value
(pushed including the terminator), and a second consecutive NUL ends the
scan.  The scan is embedded directly; the buffer produced by the Windows API
is modelled from its documented contract (`key=value` entries, each
NUL-terminated, the section ending with an extra NUL, absent sections leaving
the buffer zeroed). -/

def SHRT_MAX : Nat := 32767

/-- Wide-character code units of a string (the skin files the program reads
hold basic-multilingual-plane text, so one char is one code unit). -/
def codes (s : String) : List Nat := s.toList.map Char.toNat

/-- The scanning loop of `read_win_ini` (src/main.rs:756-778).  `cur` holds
the code units seen since the last delimiter, standing for the slice
`section[start..end]` of the source. -/
def scanSection : List Nat → Bool → List Nat → List (List Nat) → List (List Nat) →
    List (List Nat) × List (List Nat)
  | [], _, _, keys, values => (keys, values)
  | c :: rest, wasNull, cur, keys, values =>
    if c = 61 then
      scanSection rest false [] (keys ++ [cur ++ [0]]) values
    else if c = 0 then
      if wasNull then (keys, values)
      else scanSection rest true [] keys (values ++ [cur ++ [0]])
    else
      scanSection rest false (cur ++ [c]) keys values

/-- Modelled from the spec: the buffer content `GetPrivateProfileSectionW`
writes for a section given as an ordered list of key/value pairs — each entry
is `key=value` followed by a NUL, the section is closed by one more NUL, and
the rest of the `SHRT_MAX`-sized buffer keeps its zero initialisation.  An
absent (or empty) section leaves the whole buffer zeroed. -/
def sectionContent : List (String × String) → List Nat
  | [] => []
  | p :: rest => codes p.1 ++ [61] ++ codes p.2 ++ (0 :: sectionContent rest)

/-- The full `SHRT_MAX`-sized buffer handed to the scan loop.  A section
whose serialised form (including its closing NUL) fits the buffer is followed
by the remaining zero initialisation; a larger section is silently truncated
to the buffer size, the last two code units being the NUL pair that closes a
truncated section. -/
def sectionBuffer (sec : List (String × String)) : List Nat :=
  let content := sectionContent sec
  if content.length + 1 ≤ SHRT_MAX then
    content ++ List.replicate (SHRT_MAX - content.length) 0
  else
    content.take (SHRT_MAX - 2) ++ [0, 0]

/-- Model of `read_win_ini` (src/main.rs:744-780) as a function of the
`Variables` section stored in the file (`[]` for an absent section): scan the
API buffer with `start = end = 0` and `was_null = false`, producing the key
and value sequences. -/
def read_win_ini (sec : List (String × String)) : List (List Nat) × List (List Nat) :=
  scanSection (sectionBuffer sec) false [] [] []

/-- Code units that never act as delimiters in the scan: neither `=` (61)
nor NUL. -/
def goodCodes (cs : List Nat) : Bool :=
  cs.all (fun c => c != 61 && c != 0)

/-! ## File-system trees and `copy_dir_all` (src/main.rs:834-888)

Directory contents are modelled as ordered association lists from entry name
to subtree (`Entries`); a real directory listing has pairwise-distinct names,
captured by `wfE`/`wfT`.  A path that does not exist is `Option.none`. -/

mutual
inductive Tree where
  | file : List Nat → Tree
  | dir : Entries → Tree

inductive Entries where
  | nil : Entries
  | cons : Str → Tree → Entries → Entries
end

/-- Entry lookup in a directory listing (`dest.join(file_name)` resolution). -/
def lookupA (n : Str) : Entries → Option Tree
  | Entries.nil => none
  | Entries.cons m t rest => if n = m then some t else lookupA n rest

/-- Writing an entry: overwrite in place when the name exists, append
otherwise (creation of a new directory entry). -/
def setA (n : Str) (v : Tree) : Entries → Entries
  | Entries.nil => Entries.cons n v Entries.nil
  | Entries.cons m t rest =>
    if n = m then Entries.cons m v rest else Entries.cons m t (setA n v rest)

/-- Removing an entry (`fs::remove_dir_all` on a direct child). -/
def removeA (n : Str) : Entries → Entries
  | Entries.nil => Entries.nil
  | Entries.cons m t rest =>
    if n = m then rest else Entries.cons m t (removeA n rest)

/-- Whether a directory listing contains an entry named `n`. -/
def hasKey (n : Str) : Entries → Bool
  | Entries.nil => false
  | Entries.cons m _ rest => if n = m then true else hasKey n rest

/-- Well-formed listings: entry names are pairwise distinct at every level
(true of any real directory tree). -/
def wfE : Entries → Bool
  | Entries.nil => true
  | Entries.cons n (Tree.file _) rest => !hasKey n rest && wfE rest
  | Entries.cons n (Tree.dir es) rest => !hasKey n rest && wfE es && wfE rest

/-- Well-formed trees. -/
def wfT : Tree → Bool
  | Tree.file _ => true
  | Tree.dir es => wfE es

/-- `Path::is_dir` for a tree at a path. -/
def isDirT : Tree → Bool
  | Tree.dir _ => true
  | Tree.file _ => false

/-- `Path::is_dir` when the path may not exist. -/
def isDirO : Option Tree → Bool
  | some t => isDirT t
  | none => false

/-- Errors surfaced by the file operations of the program. -/
inductive FsError where
  | sourceNotDirectory
  | destinationIsFile
  | ioFailure
deriving DecidableEq

mutual
/-- Core of `copy_dir_all` (src/main.rs:834-888) for an existing source path:
fails when the source is not a directory or the destination is an existing
file; creates the destination directory when missing; then walks the source
entries. -/
def copyTree (src : Tree) (dest : Option Tree) : Except FsError Tree :=
  match src with
  | Tree.dir es =>
    match dest with
    | some (Tree.file _) => Except.error FsError.destinationIsFile
    | some (Tree.dir d) =>
      match copyEntries es d with
      | Except.ok d2 => Except.ok (Tree.dir d2)
      | Except.error e => Except.error e
    | none =>
      match copyEntries es Entries.nil with
      | Except.ok d2 => Except.ok (Tree.dir d2)
      | Except.error e => Except.error e
  | Tree.file _ => Except.error FsError.sourceNotDirectory

/-- The `for entry in fs::read_dir(src)` loop of `copy_dir_all`, threading the
destination listing through the sequential copies.  Subdirectories recurse
(the source's recursive `copy_dir_all` call); the `create_dir_all` guard
before `fs::copy` in the source re-creates `dest_path.parent()` — that parent
is the destination directory just ensured, so the guard never fires and is
omitted; `fs::copy` onto a path that is an existing directory fails, which
the model surfaces as `ioFailure`. -/
def copyEntries (es : Entries) (d : Entries) : Except FsError Entries :=
  match es with
  | Entries.nil => Except.ok d
  | Entries.cons n sub rest =>
    match sub with
    | Tree.dir ses =>
      match copyTree (Tree.dir ses) (lookupA n d) with
      | Except.ok t => copyEntries rest (setA n t d)
      | Except.error e => Except.error e
    | Tree.file c =>
      match lookupA n d with
      | some (Tree.dir _) => Except.error FsError.ioFailure
      | _ => copyEntries rest (setA n (Tree.file c) d)
end

/-- Model of `copy_dir_all` (src/main.rs:834-888): `src.is_dir()` is false
both for a missing path and for a file, in which case the function fails with
`SourceNotDirectory`. -/
def copy_dir_all (src : Option Tree) (dest : Option Tree) : Except FsError Tree :=
  match src with
  | some t => copyTree t dest
  | none => Except.error FsError.sourceNotDirectory

/-- Resolving one further path component below a (possibly missing) path. -/
def childAt (t : Option Tree) (n : Str) : Option Tree :=
  match t with
  | some (Tree.dir es) => lookupA n es
  | _ => none

/-- Placing a subtree at one path component below a parent, creating the
parent directory when it does not exist yet. -/
def setChild (t : Option Tree) (n : Str) (v : Tree) : Tree :=
  match t with
  | some (Tree.dir es) => Tree.dir (setA n v es)
  | _ => Tree.dir (Entries.cons n v Entries.nil)

/-! ## Install steps (src/main.rs:604-705) -/

def pluginsSub : Str := "Plugins".toList
def bit64Sub : Str := "64bit".toList
def layoutsSub : Str := "Layouts".toList
def skinsSub : Str := "Skins".toList
def backupSub : Str := "@Backup".toList

/-- Model of `move_plugins` (src/main.rs:604-613): merge-copy the staging
directory's `Plugins\64bit` subtree into the host plugin directory. -/
def move_plugins (staging : Option Tree) (hostPlugins : Option Tree) :
    Except FsError Tree :=
  copy_dir_all (childAt (childAt staging pluginsSub) bit64Sub) hostPlugins

/-- Model of `move_layouts` (src/main.rs:615-624): merge-copy the staging
directory's `Layouts` subtree into the host layout directory. -/
def move_layouts (staging : Option Tree) (hostLayouts : Option Tree) :
    Except FsError Tree :=
  copy_dir_all (childAt staging layoutsSub) hostLayouts

/-- The per-skin loop of `create_backup` (src/main.rs:640-661), acting on the
listing of the host's skins directory (which contains `@Backup` itself):
copy `skins_path\skin` into `skins_path\@Backup\skin`, abort on a copy error,
then delete the live skin folder when it is a directory. -/
def createBackupGo : List Str → Entries → Except FsError Entries
  | [], hostSkins => Except.ok hostSkins
  | skin :: rest, hostSkins =>
    match copy_dir_all (lookupA skin hostSkins) (childAt (lookupA backupSub hostSkins) skin) with
    | Except.error e => Except.error e
    | Except.ok t =>
      let hs1 := setA backupSub (setChild (lookupA backupSub hostSkins) skin t) hostSkins
      if isDirO (lookupA skin hs1) then createBackupGo rest (removeA skin hs1)
      else createBackupGo rest hs1

/-- Well-formedness of whatever sits at a skins-root entry: when the entry is
a directory its listing is well-formed; files and missing entries are
unconstrained. -/
def wfLookup (p : Str) (hs : Entries) : Bool :=
  match lookupA p hs with
  | some (Tree.dir es) => wfE es
  | _ => true

/-- Model of `create_backup` (src/main.rs:626-664): ensure the `@Backup`
directory exists under the skins root (`fs::create_dir_all` fails when that
path is an existing file), then back up every planned skin. -/
def create_backup (skins : List Str) (hostSkins : Entries) : Except FsError Entries :=
  if isDirO (lookupA backupSub hostSkins) then createBackupGo skins hostSkins
  else
    match lookupA backupSub hostSkins with
    | some (Tree.file _) => Except.error FsError.ioFailure
    | _ => createBackupGo skins (setA backupSub (Tree.dir Entries.nil) hostSkins)

/-! ## Variable preservation (`keep_variables`, src/main.rs:560-601)

For each declared variable file the program reads the old file's `Variables`
section through `read_win_ini` and writes every pair into the newly extracted
file with `WritePrivateProfileStringW`.  The per-file core is embedded over
the two files' `Variables` sections. -/

/-- Decoding of a NUL-terminated wide string handed to the API as a
`PCWSTR`: the code units before the first NUL. -/
def pcwstr (cs : List Nat) : String :=
  String.mk ((cs.takeWhile (fun c => c ≠ 0)).map Char.ofNat)

/-- Modelled from the spec: `WritePrivateProfileStringW` with a non-null
value sets `key=value` inside the section, replacing the value in place when
the key already exists and appending a new line otherwise. -/
def writeProfileString (key value : String) :
    List (String × String) → List (String × String)
  | [] => [(key, value)]
  | p :: rest =>
    if p.1 = key then (p.1, value) :: rest
    else p :: writeProfileString key value rest

/-- The per-file body of `keep_variables` (src/main.rs:580-597): read the old
file's `Variables` section and write each key/value pair, in order, into the
new file's `Variables` section.  The `while i < keys.len()` loop is the fold
over the key indices. -/
def keep_variables_file (old new : List (String × String)) :
    List (String × String) :=
  let kv := read_win_ini old
  (List.range kv.1.length).foldl
    (fun acc i => writeProfileString (pcwstr (kv.1.getD i [])) (pcwstr (kv.2.getD i [])) acc)
    new

/-- First-match section lookup, the way the host application reads a
`Variables` section. -/
def lookupSec (key : String) : List (String × String) → Option String
  | [] => none
  | p :: rest => if p.1 = key then some p.2 else lookupSec key rest

/-! ## Dual-encoding config reader (`read_ini`, src/main.rs:782-832)

The generic ini-grammar library and the UTF-16 decoder are external
collaborators; they enter the model as parameters.  A file system is a map
from paths to raw bytes (`none` when the path is not a file). -/

/-- The `ini::ParseOption` grammar settings passed by the program. -/
structure ParseOption where
  enabled_quote : Bool
  enabled_escape : Bool
deriving DecidableEq

/-- Errors of the config reader: the path is not a file, or both encoding
attempts failed to parse. -/
inductive IniError where
  | configNotFound
  | configParseError
deriving DecidableEq

/-- Model of `read_ini` (src/main.rs:782-832): fail with `configNotFound`
when the path is not a file; otherwise parse the bytes with the primary 8-bit
encoding and quote/escape grammar disabled; on failure re-read the same bytes
as UTF-16, convert, and re-parse with the same grammar settings; when that
also fails, fail with `configParseError`.  (`Ini`, `parse` and `utf16` stand
for the external ini library and UTF-16 reader; the re-open of the file in
the fallback path cannot fail in the model because the path was just checked
to be a file.) -/
def read_ini {Ini : Type} (parse : ParseOption → List Nat → Option Ini)
    (utf16 : List Nat → List Nat) (fileSystem : Str → Option (List Nat))
    (file_path : Str) : Except IniError Ini :=
  match fileSystem file_path with
  | none => Except.error IniError.configNotFound
  | some bytes =>
    match parse ⟨false, false⟩ bytes with
    | some ini => Except.ok ini
    | none =>
      match parse ⟨false, false⟩ (utf16 bytes) with
      | some ini => Except.ok ini
      | none => Except.error IniError.configParseError

/-! ## Extraction (`extract_zip`, src/main.rs:413-558)

Extraction iterates the archive entries, classifies each path with
`parse_zip_item`, accumulates skin/layout/plugin names, and records whether a
manifest (`RMSKIN.ini`) was seen; the staging-directory file writes are plain
I/O modelled as succeeding.  At the end the three name lists are sorted and
deduplicated, and the run fails with `ManifestMissing` when no manifest was
found. -/

def rmskinIni : Str := "RMSKIN.ini".toList
def dllExt : Str := "dll".toList

/-- The mutable accumulation of `extract_zip`. -/
structure ExtractAcc where
  skins : List Str
  layouts : List Str
  plugins : List Str
  foundRmskin : Bool

/-- One iteration of the entry loop (src/main.rs:459-540): push skin and
layout names with non-empty classified name; for the `Plugins` component keep
only `64bit` dll entries (anything else is skipped with `continue`, which
also skips the manifest check for that entry); record a manifest when the
classified name is `RMSKIN.ini`. -/
def processEntry (acc : ExtractAcc) (e : Str) : ExtractAcc :=
  let p := parse_zip_item e
  let component := p.1
  let name := p.2.1
  let ext := p.2.2
  let acc1 :=
    if component = skinsSub ∧ name ≠ [] then
      { acc with skins := acc.skins ++ [name] } else acc
  let acc2 :=
    if component = layoutsSub ∧ name ≠ [] then
      { acc1 with layouts := acc1.layouts ++ [name] } else acc1
  if component = pluginsSub then
    if name = bit64Sub ∧ ext = dllExt then
      let acc3 :=
        { acc2 with plugins := acc2.plugins ++ [(e.splitOn mainSeparator).getLastD []] }
      if name = rmskinIni then { acc3 with foundRmskin := true } else acc3
    else acc2
  else
    if name = rmskinIni then { acc2 with foundRmskin := true } else acc2

/-- Lexicographic byte order used by Rust's `Vec::sort` on strings. -/
def strLt : Str → Str → Bool
  | _, [] => false
  | [], _ :: _ => true
  | a :: as, b :: bs => if a < b then true else if b < a then false else strLt as bs

/-- Sorted insertion. -/
def insertStr (a : Str) : List Str → List Str
  | [] => [a]
  | b :: rest => if strLt b a then b :: insertStr a rest else a :: b :: rest

/-- Insertion sort, modelling `Vec::sort`. -/
def sortStr : List Str → List Str
  | [] => []
  | a :: rest => insertStr a (sortStr rest)

/-- `Vec::dedup`: remove consecutive repeated elements. -/
def dedupAdj : List Str → List Str
  | [] => []
  | [a] => [a]
  | a :: b :: rest => if a = b then dedupAdj (b :: rest) else a :: dedupAdj (b :: rest)

/-- `sort` followed by `dedup`, applied to each name list at the end of
`extract_zip`. -/
def sortDedup (l : List Str) : List Str := dedupAdj (sortStr l)

/-- Extraction error: no manifest file among the archive entries. -/
inductive ExtractError where
  | manifestMissing
deriving DecidableEq

/-- Model of `extract_zip` (src/main.rs:413-558) over the list of archive
entry paths: classify every entry, fail with `ManifestMissing` when no entry
produced a manifest, and otherwise return the sorted, deduplicated skin,
layout and plugin name lists. -/
def extract_zip (entries : List Str) :
    Except ExtractError (List Str × List Str × List Str) :=
  let acc := entries.foldl processEntry ⟨[], [], [], false⟩
  if acc.foundRmskin then
    Except.ok (sortDedup acc.skins, sortDedup acc.layouts, sortDedup acc.plugins)
  else Except.error ExtractError.manifestMissing

/-- Whether extraction succeeded, as consumed by the pipeline. -/
def extractOk (entries : List Str) : Bool :=
  match extract_zip entries with
  | Except.ok _ => true
  | Except.error _ => false

/-! ## The `main` pipeline (src/main.rs:54-208)

`main` is a fixed sequence of stages, each of which either succeeds or makes
`main` return `ExitCode::FAILURE` at once.  The model maps the outcome of
every environment-dependent stage (a `Bool` input, `true` = `Ok`) and the
relevant CLI flags and manifest options to the exit status and the ordered
list of stages that actually ran.  Host directories are mutated only inside
the `plugins`, `layouts`, `keepVars`, `mergeS`, `backup` and `skins` stages,
so a stage absent from the executed list leaves its directories untouched.
`start_rainmeter` has no failure path and is not a stage. -/

inductive Stage where
  | settings | extract | options | closeRm | plugins | layouts
  | keepVars | mergeS | backup | skins | cleanup
deriving DecidableEq

/-- Model of `main` (src/main.rs:54-208).  Arguments: `kv`/`nb` are the
`--keepvariables`/`--nobackup` CLI flags; `sf` is the initial
`Path::is_file` check on the archive argument; `ri` the Rainmeter
installation check; `so`, `oo`, `co`, `po`, `lo`, `ko`, `mo`, `bo`, `sk`,
`cl` the outcomes of reading settings, reading options, closing Rainmeter,
installing plugins, installing layouts, keeping variables, merging skins,
creating the backup, installing skins and removing the staging directory;
`ex` is `extractOk` of the archive's entries; `ms` the manifest's
`MergeSkins` flag.  Result: exit success and executed stages in order. -/
def mainRun (kv nb sf ri so ex oo ms co po lo ko mo bo sk cl : Bool) :
    Bool × List Stage :=
  if !sf then (false, [])
  else if !ri then (false, [])
  else if !so then (false, [Stage.settings])
  else if !ex then (false, [Stage.settings, Stage.extract])
  else if !oo then (false, [Stage.settings, Stage.extract, Stage.options])
  else if !co then (false, [Stage.settings, Stage.extract, Stage.options, Stage.closeRm])
  else if !po then
    (false, [Stage.settings, Stage.extract, Stage.options, Stage.closeRm, Stage.plugins])
  else if !lo then
    (false, [Stage.settings, Stage.extract, Stage.options, Stage.closeRm, Stage.plugins,
      Stage.layouts])
  else if ms then
    if kv then
      if !ko then
        (false, [Stage.settings, Stage.extract, Stage.options, Stage.closeRm, Stage.plugins,
          Stage.layouts, Stage.keepVars])
      else if !mo then
        (false, [Stage.settings, Stage.extract, Stage.options, Stage.closeRm, Stage.plugins,
          Stage.layouts, Stage.keepVars, Stage.mergeS])
      else
        (cl, [Stage.settings, Stage.extract, Stage.options, Stage.closeRm, Stage.plugins,
          Stage.layouts, Stage.keepVars, Stage.mergeS, Stage.cleanup])
    else
      if !mo then
        (false, [Stage.settings, Stage.extract, Stage.options, Stage.closeRm, Stage.plugins,
          Stage.layouts, Stage.mergeS])
      else
        (cl, [Stage.settings, Stage.extract, Stage.options, Stage.closeRm, Stage.plugins,
          Stage.layouts, Stage.mergeS, Stage.cleanup])
  else
    if !ko then
      (false, [Stage.settings, Stage.extract, Stage.options, Stage.closeRm, Stage.plugins,
        Stage.layouts, Stage.keepVars])
    else if !nb then
      if !bo then
        (false, [Stage.settings, Stage.extract, Stage.options, Stage.closeRm, Stage.plugins,
          Stage.layouts, Stage.keepVars, Stage.backup])
      else if !sk then
        (false, [Stage.settings, Stage.extract, Stage.options, Stage.closeRm, Stage.plugins,
          Stage.layouts, Stage.keepVars, Stage.backup, Stage.skins])
      else
        (cl, [Stage.settings, Stage.extract, Stage.options, Stage.closeRm, Stage.plugins,
          Stage.layouts, Stage.keepVars, Stage.backup, Stage.skins, Stage.cleanup])
    else
      if !sk then
        (false, [Stage.settings, Stage.extract, Stage.options, Stage.closeRm, Stage.plugins,
          Stage.layouts, Stage.keepVars, Stage.skins])
      else
        (cl, [Stage.settings, Stage.extract, Stage.options, Stage.closeRm, Stage.plugins,
          Stage.layouts, Stage.keepVars, Stage.skins, Stage.cleanup])

/-- The condition under which `main` reaches the cleanup stage: every earlier
stage of the taken branch succeeded. -/
def reachesCleanup (kv nb sf ri so ex oo ms co po lo ko mo bo sk : Bool) : Bool :=
  sf && ri && so && ex && oo && co && po && lo &&
    (if ms then (if kv then ko else true) && mo
     else ko && (if nb then true else bo) && sk)

/-- A small concrete source tree used as a concrete input below. -/
def sampleTree : Tree :=
  Tree.dir (Entries.cons ("a.txt".toList) (Tree.file [1])
    (Entries.cons ("d".toList)
      (Tree.dir (Entries.cons ("b.txt".toList) (Tree.file [2]) Entries.nil))
      Entries.nil))

/-! ## Claim theorems -/

/-- C1, counterexample: in a run whose extraction stage fails (and with every
other stage outcome benign), `main` returns failure immediately and the
cleanup of the staging directory is never attempted — refuting that cleanup
is attempted exactly once at the end of every run, including after an earlier
stage failure. -/
theorem cleanup_skipped_after_extract_failure :
    (mainRun false false true true true false true false true true true true true true
        true true).1 = false
      ∧ (mainRun false false true true true false true false true true true true true true
          true true).2.count Stage.cleanup = 0 := by
  decide

/-- C1, amended: cleanup of the staging directory is attempted exactly once
when every earlier pipeline stage of the taken branch succeeded, and not at
all when any earlier stage failed (the run has already exited with failure);
when cleanup does run, the run succeeds exactly when the cleanup removal
itself succeeds, so a cleanup failure turns an otherwise successful run into
a failure. -/
theorem cleanup_iff_all_stages_ok :
    ∀ kv nb sf ri so ex oo ms co po lo ko mo bo sk cl : Bool,
      ((mainRun kv nb sf ri so ex oo ms co po lo ko mo bo sk cl).2.count Stage.cleanup
          = if reachesCleanup kv nb sf ri so ex oo ms co po lo ko mo bo sk then 1 else 0)
        ∧ ((mainRun kv nb sf ri so ex oo ms co po lo ko mo bo sk cl).1
          = (reachesCleanup kv nb sf ri so ex oo ms co po lo ko mo bo sk && cl)) := by
  intro kv nb sf ri so ex oo ms co po lo ko mo bo sk cl
  cases sf <;> cases ri <;> cases so <;> cases ex <;> cases oo <;> cases co <;>
    cases po <;> cases lo <;>
    first
      | exact ⟨rfl, rfl⟩
      | (revert ms kv nb ko mo bo sk cl; decide)

/-- C3, counterexample: a run whose manifest sets `MergeSkins` and whose
`--keepvariables` flag is absent performs the skin merge without ever running
the variable-preservation step — refuting that preservation on the merge path
is unconditional on CLI flags. -/
theorem merge_without_keepvariables_skips_preservation :
    (mainRun false false true true true true true true true true true true true true
        true true).2.count Stage.keepVars = 0
      ∧ (mainRun false false true true true true true true true true true true true true
          true true).2.count Stage.mergeS = 1 := by
  decide

/-- C3, amended: once the pipeline reaches the skin-install branch, the
variable-preservation step runs on the merge path only when the
`--keepvariables` CLI flag is set, and on the non-merge path it runs
unconditionally (the flag gates the merge path, not the non-merge path). -/
theorem keepVars_gated_by_flag_on_merge_path :
    ∀ kv nb sf ri so ex oo ms co po lo ko mo bo sk cl : Bool,
      (mainRun kv nb sf ri so ex oo ms co po lo ko mo bo sk cl).2.count Stage.keepVars
        = if sf && ri && so && ex && oo && co && po && lo then
            (if ms then (if kv then 1 else 0) else 1)
          else 0 := by
  intro kv nb sf ri so ex oo ms co po lo ko mo bo sk cl
  cases sf <;> cases ri <;> cases so <;> cases ex <;> cases oo <;> cases co <;>
    cases po <;> cases lo <;>
    first
      | exact rfl
      | (revert ms kv nb ko mo bo sk cl; decide)

/-- C5: the archive-entry classifier is a pure function of the path string;
with at least three separator-delimited segments the component is segment 0,
the name segment 1 and the extension that of the last segment; with exactly
two segments the component is empty, the name segment 0 and the extension
that of segment 1; with exactly one segment the name is that segment and
component and extension are empty. -/
theorem parse_zip_item_segment_cases (item : Str) :
    (3 ≤ (item.splitOn mainSeparator).length →
      parse_zip_item item =
        ((item.splitOn mainSeparator).getD 0 [], (item.splitOn mainSeparator).getD 1 [],
          extensionOf ((item.splitOn mainSeparator).getLastD [])))
    ∧ ((item.splitOn mainSeparator).length = 2 →
      parse_zip_item item =
        ([], (item.splitOn mainSeparator).getD 0 [],
          extensionOf ((item.splitOn mainSeparator).getD 1 [])))
    ∧ ((item.splitOn mainSeparator).length = 1 →
      parse_zip_item item = ([], (item.splitOn mainSeparator).getD 0 [], [])) := by
  refine ⟨fun h => ?_, fun h => ?_, fun h => ?_⟩ <;> simp only [parse_zip_item]
  · rw [if_pos (by omega)]
  · rw [if_neg (by omega), if_pos (by omega)]
  · rw [if_neg (by omega), if_neg (by omega), if_pos (by omega)]

/-- Scanning a run of non-delimiter code units accumulates them into the
current token. -/
theorem scan_walk : ∀ cs : List Nat, goodCodes cs = true →
    ∀ (b : Bool) (cur : List Nat) (keys values : List (List Nat)) (rest : List Nat),
      scanSection (cs ++ rest) b cur keys values
        = scanSection rest (if cs = [] then b else false) (cur ++ cs) keys values := by
  intro cs
  induction cs with
  | nil => intro _ b cur keys values rest; simp
  | cons c cs ih =>
    intro hg b cur keys values rest
    have hg' := hg
    simp only [goodCodes, List.all_cons, Bool.and_eq_true, bne_iff_ne] at hg'
    obtain ⟨⟨h61, h0⟩, hrest⟩ := hg'
    have hrest' : goodCodes cs = true := hrest
    simp only [List.cons_append, scanSection]
    rw [if_neg h61, if_neg h0]
    rw [show cs.append rest = cs ++ rest from rfl,
      ih hrest' false (cur ++ [c]) keys values rest]
    simp [List.append_assoc]

/-- Scanning one `key=value` entry followed by its NUL pushes the
NUL-terminated key and value. -/
theorem scan_entry (k v : List Nat) (hk : goodCodes k = true) (hv : goodCodes v = true)
    (b : Bool) (keys values : List (List Nat)) (rest : List Nat) :
    scanSection (k ++ 61 :: (v ++ 0 :: rest)) b [] keys values
      = scanSection rest true [] (keys ++ [k ++ [0]]) (values ++ [v ++ [0]]) := by
  rw [scan_walk k hk b [] keys values (61 :: (v ++ 0 :: rest))]
  simp only [List.nil_append]
  rw [show scanSection (61 :: (v ++ 0 :: rest)) (if k = [] then b else false) k keys values
      = scanSection (v ++ 0 :: rest) false [] (keys ++ [k ++ [0]]) values from by
    simp [scanSection]]
  rw [scan_walk v hv false [] (keys ++ [k ++ [0]]) values (0 :: rest)]
  simp only [List.nil_append]
  rw [show scanSection (0 :: rest) (if v = [] then false else false) v
        (keys ++ [k ++ [0]]) values
      = scanSection rest true [] (keys ++ [k ++ [0]]) (values ++ [v ++ [0]]) from by
    simp [scanSection]]

/-- The zero padding after the section's closing NUL terminates the scan. -/
theorem scan_zeros (m : Nat) (keys values : List (List Nat)) :
    scanSection (List.replicate m 0) true [] keys values = (keys, values) := by
  cases m with
  | zero => rfl
  | succ m => simp [List.replicate_succ, scanSection]

/-- Scanning a whole section body (with zero padding) appends one
NUL-terminated key and value per entry. -/
theorem scan_content : ∀ sec : List (String × String),
    sec.all (fun p => goodCodes (codes p.1) && goodCodes (codes p.2)) = true →
    ∀ (keys values : List (List Nat)) (m : Nat),
      scanSection (sectionContent sec ++ List.replicate m 0) true [] keys values
        = (keys ++ sec.map (fun p => codes p.1 ++ [0]),
           values ++ sec.map (fun p => codes p.2 ++ [0])) := by
  intro sec
  induction sec with
  | nil => intro _ keys values m; simp [sectionContent, scan_zeros]
  | cons p rest ih =>
    intro hg keys values m
    simp only [List.all_cons, Bool.and_eq_true] at hg
    obtain ⟨⟨hk, hv⟩, hrest⟩ := hg
    have hshape : sectionContent (p :: rest) ++ List.replicate m 0
        = codes p.1 ++ 61 :: (codes p.2 ++ 0 :: (sectionContent rest ++ List.replicate m 0)) := by
      simp [sectionContent, List.append_assoc]
    rw [hshape, scan_entry (codes p.1) (codes p.2) hk hv true keys values
      (sectionContent rest ++ List.replicate m 0), ih hrest (keys ++ [codes p.1 ++ [0]])
      (values ++ [codes p.2 ++ [0]]) m]
    simp

/-- C2, amended: for every file whose `Variables` section is present,
non-empty (keys and values free of `=` and NUL code units) and small enough
to fit the `SHRT_MAX` section buffer together with its closing NUL, the raw
section reader produces two equal-length ordered sequences — one
NUL-terminated entry per key and per value, in section order (sections
larger than the buffer are silently truncated, the documented limitation).
When the section is entirely absent (or empty) it does NOT produce two empty
sequences: the scan pushes one spurious all-NUL value before seeing the
second terminator, yielding an empty key sequence and a one-element value
sequence. -/
theorem read_win_ini_shape :
    (∀ sec : List (String × String), sec ≠ [] →
        (sectionContent sec).length + 1 ≤ SHRT_MAX →
        sec.all (fun p => goodCodes (codes p.1) && goodCodes (codes p.2)) = true →
        read_win_ini sec
            = (sec.map (fun p => codes p.1 ++ [0]), sec.map (fun p => codes p.2 ++ [0]))
          ∧ (read_win_ini sec).1.length = (read_win_ini sec).2.length)
      ∧ read_win_ini [] = ([], [[0]]) := by
  constructor
  · intro sec hne hfit hg
    have hmain : read_win_ini sec
        = (sec.map (fun p => codes p.1 ++ [0]), sec.map (fun p => codes p.2 ++ [0])) := by
      match sec, hne with
      | p :: rest, _ =>
        simp only [List.all_cons, Bool.and_eq_true] at hg
        obtain ⟨⟨hk, hv⟩, hrest⟩ := hg
        have hshape : sectionBuffer (p :: rest)
            = codes p.1 ++ 61 :: (codes p.2 ++ 0 :: (sectionContent rest
                ++ List.replicate (SHRT_MAX - (sectionContent (p :: rest)).length) 0)) := by
          simp only [sectionBuffer]
          rw [if_pos hfit]
          simp [sectionContent, List.append_assoc]
        rw [read_win_ini, hshape,
          scan_entry (codes p.1) (codes p.2) hk hv false [] [] _]
        simp only [List.nil_append]
        rw [scan_content rest hrest [codes p.1 ++ [0]] [codes p.2 ++ [0]] _]
        simp
    refine ⟨hmain, ?_⟩
    rw [hmain]
    simp
  · rfl

/-- C2, counterexample: with the `Variables` section entirely absent the
reader does not return two equal-length (empty) sequences — the value
sequence holds one spurious NUL entry while the key sequence is empty. -/
theorem read_win_ini_absent_section_mismatch :
    read_win_ini [] ≠ ([], [])
      ∧ (read_win_ini []).1.length ≠ (read_win_ini []).2.length := by
  constructor
  · intro h
    have : ([] : List (List Nat)) = [[0]] := congrArg Prod.snd h.symm
    simp at this
  · intro h
    rw [show read_win_ini [] = ([], [[0]]) from rfl] at h
    simp at h

/-- C2, witness: the amended theorem at the one-entry section `A=1`. -/
theorem read_win_ini_shape_witness :
    read_win_ini [("A", "1")]
        = ([("A", "1")].map (fun p => codes p.1 ++ [0]),
           [("A", "1")].map (fun p => codes p.2 ++ [0]))
      ∧ (read_win_ini [("A", "1")]).1.length = (read_win_ini [("A", "1")]).2.length :=
  read_win_ini_shape.1 [("A", "1")] (by decide) (by decide) (by decide)

/-- C4: variable-preservation round trip (`GetPrivateProfileSectionW` and
`WritePrivateProfileStringW` are modelled from their documented contracts;
the scan and write loop are embedded from the source).  With an old
`Variables` section `{A=1, B=two}` and a new one `{A=default, C=three}`, the
preserved file maps `A` to `1` and `B` to `two` (old values win on shared
keys), keeps `C = three`, and leaves every other key of the new file
unchanged. -/
theorem keep_variables_round_trip :
    lookupSec "A" (keep_variables_file [("A", "1"), ("B", "two")]
        [("A", "default"), ("C", "three")]) = some "1"
      ∧ lookupSec "B" (keep_variables_file [("A", "1"), ("B", "two")]
          [("A", "default"), ("C", "three")]) = some "two"
      ∧ lookupSec "C" (keep_variables_file [("A", "1"), ("B", "two")]
          [("A", "default"), ("C", "three")]) = some "three"
      ∧ ∀ k : String, k ≠ "A" → k ≠ "B" →
          lookupSec k (keep_variables_file [("A", "1"), ("B", "two")]
              [("A", "default"), ("C", "three")])
            = lookupSec k [("A", "default"), ("C", "three")] := by
  have hr : keep_variables_file [("A", "1"), ("B", "two")] [("A", "default"), ("C", "three")]
      = [("A", "1"), ("C", "three"), ("B", "two")] := by decide
  refine ⟨by rw [hr]; decide, by rw [hr]; decide, by rw [hr]; decide, ?_⟩
  intro k hA hB
  have hA' : ¬ ("A" : String) = k := fun h => hA h.symm
  have hB' : ¬ ("B" : String) = k := fun h => hB h.symm
  rw [hr]
  simp [lookupSec, hA', hB']

/-- C4, witness: the unrelated-key clause of the round-trip theorem at the
concrete key `Z`. -/
theorem keep_variables_round_trip_witness :
    lookupSec "Z" (keep_variables_file [("A", "1"), ("B", "two")]
        [("A", "default"), ("C", "three")])
      = lookupSec "Z" [("A", "default"), ("C", "three")] :=
  keep_variables_round_trip.2.2.2 "Z" (by decide) (by decide)

/-- C8: the dual-encoding config reader fails with `configNotFound` exactly
when the path is not a file, fails with `configParseError` exactly when both
encoding attempts fail, succeeds with the primary-encoding parse when it
works, and otherwise succeeds with the re-parsed UTF-16 conversion — both
attempts using the quote/escape-disabled grammar settings. -/
theorem read_ini_contract {Ini : Type} (parse : ParseOption → List Nat → Option Ini)
    (utf16 : List Nat → List Nat) (fileSystem : Str → Option (List Nat)) (path : Str) :
    (read_ini parse utf16 fileSystem path = Except.error IniError.configNotFound
        ↔ fileSystem path = none)
    ∧ (read_ini parse utf16 fileSystem path = Except.error IniError.configParseError
        ↔ ∃ bytes, fileSystem path = some bytes
            ∧ parse ⟨false, false⟩ bytes = none
            ∧ parse ⟨false, false⟩ (utf16 bytes) = none)
    ∧ (∀ bytes ini, fileSystem path = some bytes →
        parse ⟨false, false⟩ bytes = some ini →
        read_ini parse utf16 fileSystem path = Except.ok ini)
    ∧ (∀ bytes ini, fileSystem path = some bytes →
        parse ⟨false, false⟩ bytes = none →
        parse ⟨false, false⟩ (utf16 bytes) = some ini →
        read_ini parse utf16 fileSystem path = Except.ok ini) := by
  cases hfs : fileSystem path with
  | none => simp [read_ini, hfs]
  | some bytes =>
    cases hp : parse ⟨false, false⟩ bytes with
    | some ini =>
      simp [read_ini, hfs, hp]
      constructor
      · rintro b i rfl hpi
        rw [hp] at hpi
        exact Option.some.inj hpi
      · rintro b i rfl hpn
        rw [hp] at hpn
        simp at hpn
    | none =>
      cases hq : parse ⟨false, false⟩ (utf16 bytes) with
      | some ini =>
        simp [read_ini, hfs, hp, hq]
        constructor
        · rintro b i rfl hpi
          rw [hp] at hpi
          simp at hpi
        · rintro b i rfl hpn hqi
          rw [hq] at hqi
          exact Option.some.inj hqi
      | none =>
        simp [read_ini, hfs, hp, hq]
        constructor
        · rintro b i rfl
          rw [hp]
          simp
        · rintro b i rfl hpn
          rw [hq]
          simp

/-- C8, witness: the primary-encoding success clause at a concrete parser,
file system and path. -/
theorem read_ini_contract_witness :
    read_ini (fun o b => if o = ⟨false, false⟩ ∧ b = [1] then some 7 else none)
        id (fun p => if p = [] then some [1] else none) [] = Except.ok 7 :=
  (read_ini_contract (fun o b => if o = ⟨false, false⟩ ∧ b = [1] then some 7 else none)
      id (fun p => if p = [] then some [1] else none) []).2.2.1 [1] 7 (by decide) (by decide)

/-- An entry whose classified name is not the manifest name leaves the
manifest-found flag unchanged. -/
theorem processEntry_found (acc : ExtractAcc) (e : Str)
    (h : (parse_zip_item e).2.1 ≠ rmskinIni) :
    (processEntry acc e).foundRmskin = acc.foundRmskin := by
  simp only [processEntry]
  split_ifs <;> rfl

/-- Folding the entry loop over manifest-free entries leaves the
manifest-found flag unchanged. -/
theorem extract_found (entries : List Str)
    (h : ∀ e ∈ entries, (parse_zip_item e).2.1 ≠ rmskinIni) :
    ∀ acc : ExtractAcc, (entries.foldl processEntry acc).foundRmskin = acc.foundRmskin := by
  induction entries with
  | nil => intro acc; rfl
  | cons e rest ih =>
    intro acc
    rw [List.foldl_cons, ih (fun x hx => h x (List.mem_cons_of_mem e hx)),
      processEntry_found acc e (h e (List.mem_cons_self e rest))]

/-- C6: when no archive entry classifies to the manifest name `RMSKIN.ini`,
extraction fails with `ManifestMissing`, and a run over such an archive
(with the stages before extraction succeeding) exits with failure having
executed only the settings and extraction stages — in particular none of the
plugin, layout, skin, merge or backup stages that mutate host directories. -/
theorem manifest_missing_aborts (entries : List Str)
    (h : ∀ e ∈ entries, (parse_zip_item e).2.1 ≠ rmskinIni) :
    extract_zip entries = Except.error ExtractError.manifestMissing
      ∧ ∀ kv nb oo ms co po lo ko mo bo sk cl : Bool,
          mainRun kv nb true true true (extractOk entries) oo ms co po lo ko mo bo sk cl
            = (false, [Stage.settings, Stage.extract]) := by
  have hfold := extract_found entries h ⟨[], [], [], false⟩
  have hext : extract_zip entries = Except.error ExtractError.manifestMissing := by
    simp only [extract_zip]
    rw [hfold]
    rfl
  refine ⟨hext, ?_⟩
  intro kv nb oo ms co po lo ko mo bo sk cl
  have hok : extractOk entries = false := by
    simp [extractOk, hext]
  rw [hok]
  rfl

/-- C6, witness: a concrete archive holding a single skin file and no
manifest. -/
theorem manifest_missing_aborts_witness :
    extract_zip ["Skins\\Demo\\Demo.ini".toList]
        = Except.error ExtractError.manifestMissing
      ∧ mainRun true true true true true (extractOk ["Skins\\Demo\\Demo.ini".toList]) true
          true true true true true true true true true
        = (false, [Stage.settings, Stage.extract]) := by
  have h := manifest_missing_aborts ["Skins\\Demo\\Demo.ini".toList] (by decide)
  exact ⟨h.1, h.2 true true true true true true true true true true true true⟩

/-! Association-list lemmas for directory listings. -/

theorem lookupA_setA_self (n : Str) (v : Tree) (d : Entries) :
    lookupA n (setA n v d) = some v := by
  match d with
  | Entries.nil => simp [setA, lookupA]
  | Entries.cons m t rest =>
    by_cases h : n = m
    · simp [setA, h, lookupA]
    · simp [setA, h, lookupA, lookupA_setA_self n v rest]

theorem lookupA_setA_other (n m : Str) (v : Tree) (d : Entries) (h : ¬ m = n) :
    lookupA m (setA n v d) = lookupA m d := by
  match d with
  | Entries.nil => simp [setA, lookupA, h]
  | Entries.cons k t rest =>
    by_cases hk : n = k
    · subst hk
      simp [setA, lookupA, h]
    · simp [setA, hk, lookupA, lookupA_setA_other n m v rest h]

theorem setA_lookup_id (n : Str) (v : Tree) (d : Entries) (h : lookupA n d = some v) :
    setA n v d = d := by
  match d with
  | Entries.nil => simp [lookupA] at h
  | Entries.cons m t rest =>
    by_cases hm : n = m
    · simp [lookupA, hm] at h
      simp [setA, hm, h]
    · simp [lookupA, hm] at h
      simp [setA, hm, setA_lookup_id n v rest h]

theorem lookupA_removeA_other (n m : Str) (d : Entries) (h : ¬ m = n) :
    lookupA m (removeA n d) = lookupA m d := by
  match d with
  | Entries.nil => simp [removeA]
  | Entries.cons k t rest =>
    by_cases hk : n = k
    · subst hk
      simp [removeA, lookupA, h]
    · by_cases hm : m = k
      · simp [removeA, hk, lookupA, hm]
      · simp [removeA, hk, lookupA, hm, lookupA_removeA_other n m rest h]

theorem lookupA_of_not_hasKey (n : Str) (d : Entries) (h : hasKey n d = false) :
    lookupA n d = none := by
  match d with
  | Entries.nil => simp [lookupA]
  | Entries.cons m t rest =>
    by_cases hm : n = m
    · simp [hasKey, hm] at h
    · simp [hasKey, hm] at h
      simp [lookupA, hm, lookupA_of_not_hasKey n rest h]

/-- A key absent from the copied source entries keeps its destination value
through the copy loop (merge-copy never removes destination-only entries). -/
theorem copyEntries_lookup_untouched (es : Entries) :
    ∀ (d d2 : Entries) (n : Str), hasKey n es = false →
      copyEntries es d = Except.ok d2 → lookupA n d2 = lookupA n d := by
  match es with
  | Entries.nil =>
    intro d d2 n _ h
    replace h : Except.ok d = Except.ok d2 := h
    cases h
    rfl
  | Entries.cons m sub rest =>
    intro d d2 n hn h
    have hnm : ¬ n = m := by
      by_cases hx : n = m
      · simp [hasKey, hx] at hn
      · exact hx
    have hnrest : hasKey n rest = false := by
      simp [hasKey, hnm] at hn
      exact hn
    cases sub with
    | dir ses =>
      cases hct : copyTree (Tree.dir ses) (lookupA m d) with
      | error e =>
        simp only [copyEntries] at h
        rw [hct] at h
        cases h
      | ok t =>
        simp only [copyEntries] at h
        rw [hct] at h
        replace h : copyEntries rest (setA m t d) = Except.ok d2 := h
        rw [copyEntries_lookup_untouched rest (setA m t d) d2 n hnrest h,
          lookupA_setA_other m n t d hnm]
    | file c =>
      cases hl : lookupA m d with
      | some u =>
        cases u with
        | dir des =>
          simp only [copyEntries] at h
          rw [hl] at h
          cases h
        | file cc =>
          simp only [copyEntries] at h
          rw [hl] at h
          replace h : copyEntries rest (setA m (Tree.file c) d) = Except.ok d2 := h
          rw [copyEntries_lookup_untouched rest (setA m (Tree.file c) d) d2 n hnrest h,
            lookupA_setA_other m n (Tree.file c) d hnm]
      | none =>
        simp only [copyEntries] at h
        rw [hl] at h
        replace h : copyEntries rest (setA m (Tree.file c) d) = Except.ok d2 := h
        rw [copyEntries_lookup_untouched rest (setA m (Tree.file c) d) d2 n hnrest h,
          lookupA_setA_other m n (Tree.file c) d hnm]

mutual
/-- Re-copying a well-formed directory onto the result of a first copy
reproduces that result. -/
theorem copyTree_idem (src : Tree) (dest : Option Tree) (t : Tree)
    (hw : wfT src = true) (h : copyTree src dest = Except.ok t) :
    copyTree src (some t) = Except.ok t := by
  match src with
  | Tree.file c => simp [copyTree] at h
  | Tree.dir es =>
    match dest with
    | some (Tree.file _) => simp [copyTree] at h
    | some (Tree.dir d) =>
      cases hce : copyEntries es d with
      | error e =>
        simp only [copyTree] at h
        rw [hce] at h
        cases h
      | ok d2 =>
        simp only [copyTree] at h
        rw [hce] at h
        cases h
        have h2 := copyEntries_idem es d d2 hw hce
        simp only [copyTree]
        rw [h2]
    | none =>
      cases hce : copyEntries es Entries.nil with
      | error e =>
        simp only [copyTree] at h
        rw [hce] at h
        cases h
      | ok d2 =>
        simp only [copyTree] at h
        rw [hce] at h
        cases h
        have h2 := copyEntries_idem es Entries.nil d2 hw hce
        simp only [copyTree]
        rw [h2]

/-- Re-running the copy loop of a well-formed source on its own output is the
identity. -/
theorem copyEntries_idem (es : Entries) (d d2 : Entries) (hw : wfE es = true)
    (h : copyEntries es d = Except.ok d2) :
    copyEntries es d2 = Except.ok d2 := by
  match es with
  | Entries.nil =>
    simp only [copyEntries] at h
    cases h
    rfl
  | Entries.cons n sub rest =>
    match sub with
    | Tree.dir ses =>
      have hw' := hw
      simp only [wfE, Bool.and_eq_true, Bool.not_eq_true'] at hw'
      obtain ⟨⟨hkey, hwses⟩, hwrest⟩ := hw'
      cases hct : copyTree (Tree.dir ses) (lookupA n d) with
      | error e =>
        simp only [copyEntries] at h
        rw [hct] at h
        cases h
      | ok t =>
        simp only [copyEntries] at h
        rw [hct] at h
        replace h : copyEntries rest (setA n t d) = Except.ok d2 := h
        have hl2 : lookupA n d2 = some t := by
          rw [copyEntries_lookup_untouched rest (setA n t d) d2 n hkey h,
            lookupA_setA_self]
        have hct2 : copyTree (Tree.dir ses) (some t) = Except.ok t :=
          copyTree_idem (Tree.dir ses) (lookupA n d) t hwses hct
        simp only [copyEntries]
        rw [hl2, hct2]
        show copyEntries rest (setA n t d2) = Except.ok d2
        rw [setA_lookup_id n t d2 hl2]
        exact copyEntries_idem rest (setA n t d) d2 hwrest h
    | Tree.file c =>
      have hw' := hw
      simp only [wfE, Bool.and_eq_true, Bool.not_eq_true'] at hw'
      obtain ⟨hkey, hwrest⟩ := hw'
      have step :
          copyEntries rest (setA n (Tree.file c) d) = Except.ok d2 := by
        cases hl : lookupA n d with
        | some u =>
          cases u with
          | dir des =>
            simp only [copyEntries] at h
            rw [hl] at h
            cases h
          | file cc =>
            simp only [copyEntries] at h
            rw [hl] at h
            exact h
        | none =>
          simp only [copyEntries] at h
          rw [hl] at h
          exact h
      have hl2 : lookupA n d2 = some (Tree.file c) := by
        rw [copyEntries_lookup_untouched rest (setA n (Tree.file c) d) d2 n hkey step,
          lookupA_setA_self]
      simp only [copyEntries]
      rw [hl2]
      show copyEntries rest (setA n (Tree.file c) d2) = Except.ok d2
      rw [setA_lookup_id n (Tree.file c) d2 hl2]
      exact copyEntries_idem rest (setA n (Tree.file c) d) d2 hwrest step
end

/-- C7: the recursive merge-copy is idempotent — for a well-formed source
directory tree (pairwise-distinct entry names, as in a real file system) and
any destination, when one application yields the destination tree `t`, a
second application of the same copy onto `t` yields `t` again (missing
directories are created, existing files overwritten with identical content,
and destination-only entries left untouched, so nothing changes). -/
theorem copy_dir_all_idempotent (src : Tree) (dest : Option Tree) (t : Tree)
    (hw : wfT src = true) (h : copy_dir_all (some src) dest = Except.ok t) :
    copy_dir_all (some src) (some t) = Except.ok t :=
  copyTree_idem src dest t hw h

/-- C7, witness: copying the sample tree into an empty destination once and
then re-copying onto the result reproduces it. -/
theorem copy_dir_all_idempotent_witness :
    copy_dir_all (some sampleTree) (some sampleTree) = Except.ok sampleTree :=
  copy_dir_all_idempotent sampleTree none sampleTree rfl rfl

/-- A source path that is not an existing directory makes `copy_dir_all`
fail with `SourceNotDirectory`. -/
theorem copy_not_dir (src dest : Option Tree) (h : isDirO src = false) :
    copy_dir_all src dest = Except.error FsError.sourceNotDirectory := by
  cases src with
  | none => rfl
  | some t =>
    cases t with
    | file c => rfl
    | dir es => simp [isDirO, isDirT] at h

/-- C9: when the staging directory lacks a `Plugins\64bit` subdirectory the
plugin install step fails with the source-is-not-a-directory error; when it
lacks a `Layouts` subdirectory the layout install step fails the same way;
and a run whose plugin stage (resp. layout stage) fails exits with failure
without ever executing the skin-install or skin-merge stages. -/
theorem missing_staging_subtree_aborts :
    (∀ staging hostPlugins : Option Tree,
        isDirO (childAt (childAt staging pluginsSub) bit64Sub) = false →
        move_plugins staging hostPlugins = Except.error FsError.sourceNotDirectory)
    ∧ (∀ staging hostLayouts : Option Tree,
        isDirO (childAt staging layoutsSub) = false →
        move_layouts staging hostLayouts = Except.error FsError.sourceNotDirectory)
    ∧ (∀ kv nb sf ri so ex oo ms co lo ko mo bo sk cl : Bool,
        (mainRun kv nb sf ri so ex oo ms co false lo ko mo bo sk cl).1 = false
          ∧ (mainRun kv nb sf ri so ex oo ms co false lo ko mo bo sk cl).2.count Stage.skins = 0
          ∧ (mainRun kv nb sf ri so ex oo ms co false lo ko mo bo sk cl).2.count Stage.mergeS = 0)
    ∧ (∀ kv nb sf ri so ex oo ms co po ko mo bo sk cl : Bool,
        (mainRun kv nb sf ri so ex oo ms co po false ko mo bo sk cl).1 = false
          ∧ (mainRun kv nb sf ri so ex oo ms co po false ko mo bo sk cl).2.count Stage.skins = 0
          ∧ (mainRun kv nb sf ri so ex oo ms co po false ko mo bo sk cl).2.count Stage.mergeS
              = 0) := by
  refine ⟨?_, ?_, ?_, ?_⟩
  · intro staging hostPlugins h
    exact copy_not_dir _ _ h
  · intro staging hostLayouts h
    exact copy_not_dir _ _ h
  · intro kv nb sf ri so ex oo ms co lo ko mo bo sk cl
    cases sf <;> cases ri <;> cases so <;> cases ex <;> cases oo <;> cases co <;>
      exact ⟨rfl, rfl, rfl⟩
  · intro kv nb sf ri so ex oo ms co po ko mo bo sk cl
    cases sf <;> cases ri <;> cases so <;> cases ex <;> cases oo <;> cases co <;>
      cases po <;> exact ⟨rfl, rfl, rfl⟩

/-- C9, witness: a staging directory that is entirely missing. -/
theorem missing_staging_subtree_aborts_witness :
    move_plugins none none = Except.error FsError.sourceNotDirectory :=
  missing_staging_subtree_aborts.1 none none rfl

/-- Copying a well-formed set of source entries into a destination listing
disjoint from its names always succeeds. -/
theorem copyEntries_fresh (es : Entries) :
    ∀ d : Entries, wfE es = true →
      (∀ n : Str, hasKey n es = true → lookupA n d = none) →
      ∃ d2, copyEntries es d = Except.ok d2 := by
  match es with
  | Entries.nil =>
    intro d _ _
    exact ⟨d, rfl⟩
  | Entries.cons n sub rest =>
    intro d hw hdisj
    have hln : lookupA n d = none := hdisj n (by simp [hasKey])
    cases sub with
    | file c =>
      simp only [wfE, Bool.and_eq_true, Bool.not_eq_true'] at hw
      obtain ⟨hkey, hwrest⟩ := hw
      have hdisj2 : ∀ m : Str, hasKey m rest = true →
          lookupA m (setA n (Tree.file c) d) = none := by
        intro m hm
        have hmn : ¬ m = n := by
          intro he
          subst he
          rw [hm] at hkey
          cases hkey
        rw [lookupA_setA_other n m (Tree.file c) d hmn]
        exact hdisj m (by simp [hasKey, hm])
      obtain ⟨d2, hd2⟩ := copyEntries_fresh rest (setA n (Tree.file c) d) hwrest hdisj2
      refine ⟨d2, ?_⟩
      simp only [copyEntries]
      rw [hln]
      exact hd2
    | dir ses =>
      simp only [wfE, Bool.and_eq_true, Bool.not_eq_true'] at hw
      obtain ⟨⟨hkey, hwses⟩, hwrest⟩ := hw
      obtain ⟨s2, hs2⟩ := copyEntries_fresh ses Entries.nil hwses (fun m _ => rfl)
      have hct : copyTree (Tree.dir ses) (lookupA n d) = Except.ok (Tree.dir s2) := by
        rw [hln]
        simp only [copyTree]
        rw [hs2]
      have hdisj2 : ∀ m : Str, hasKey m rest = true →
          lookupA m (setA n (Tree.dir s2) d) = none := by
        intro m hm
        have hmn : ¬ m = n := by
          intro he
          subst he
          rw [hm] at hkey
          cases hkey
        rw [lookupA_setA_other n m (Tree.dir s2) d hmn]
        exact hdisj m (by simp [hasKey, hm])
      obtain ⟨d2, hd2⟩ := copyEntries_fresh rest (setA n (Tree.dir s2) d) hwrest hdisj2
      refine ⟨d2, ?_⟩
      simp only [copyEntries]
      rw [hct]
      exact hd2

/-- Unfolding of one successful backup-loop iteration. -/
theorem createBackupGo_cons_ok (skin : Str) (rest : List Str) (hs : Entries) (t : Tree)
    (h : copy_dir_all (lookupA skin hs) (childAt (lookupA backupSub hs) skin)
      = Except.ok t) :
    createBackupGo (skin :: rest) hs =
      (if isDirO (lookupA skin (setA backupSub (setChild (lookupA backupSub hs) skin t) hs))
          = true
       then createBackupGo rest
        (removeA skin (setA backupSub (setChild (lookupA backupSub hs) skin t) hs))
       else createBackupGo rest
        (setA backupSub (setChild (lookupA backupSub hs) skin t) hs)) := by
  simp only [createBackupGo]
  rw [h]

/-- The backup loop hits the source-is-not-a-directory error as soon as a
planned skin has no directory in the host's skins tree, provided the
`@Backup` destination holds none of the planned names yet. -/
theorem createBackupGo_missing : ∀ (plan : List Str) (hs bs : Entries),
    plan.Nodup → backupSub ∉ plan →
    lookupA backupSub hs = some (Tree.dir bs) →
    (∀ p ∈ plan, lookupA p bs = none) →
    (∀ p ∈ plan, wfLookup p hs = true) →
    (∃ s ∈ plan, isDirO (lookupA s hs) = false) →
    createBackupGo plan hs = Except.error FsError.sourceNotDirectory := by
  intro plan
  induction plan with
  | nil =>
    intro hs bs _ _ _ _ _ hmiss
    simp at hmiss
  | cons skin rest ih =>
    intro hs bs hnd hbp hb hdisj hwf hmiss
    have hsb : ¬ skin = backupSub := fun he => hbp (he ▸ List.mem_cons_self skin rest)
    cases hdir : isDirO (lookupA skin hs) with
    | false =>
      have hcopy := copy_not_dir (lookupA skin hs)
        (childAt (lookupA backupSub hs) skin) hdir
      simp only [createBackupGo]
      rw [hcopy]
    | true =>
      cases hl : lookupA skin hs with
      | none => rw [hl] at hdir; cases hdir
      | some u =>
        cases u with
        | file c => rw [hl] at hdir; cases hdir
        | dir es =>
          have hwes : wfE es = true := by
            have hx := hwf skin (List.mem_cons_self skin rest)
            rw [wfLookup, hl] at hx
            exact hx
          have hdest : childAt (lookupA backupSub hs) skin = none := by
            rw [hb]
            exact hdisj skin (List.mem_cons_self skin rest)
          obtain ⟨s2, hs2⟩ := copyEntries_fresh es Entries.nil hwes (fun m _ => rfl)
          have hcopy : copy_dir_all (lookupA skin hs) (childAt (lookupA backupSub hs) skin)
              = Except.ok (Tree.dir s2) := by
            rw [hl, hdest]
            simp only [copy_dir_all, copyTree]
            rw [hs2]
          rw [createBackupGo_cons_ok skin rest hs (Tree.dir s2) hcopy]
          have hX : setChild (lookupA backupSub hs) skin (Tree.dir s2)
              = Tree.dir (setA skin (Tree.dir s2) bs) := by
            rw [hb]
            rfl
          rw [hX]
          have hskin1 : lookupA skin
              (setA backupSub (Tree.dir (setA skin (Tree.dir s2) bs)) hs)
              = some (Tree.dir es) := by
            rw [lookupA_setA_other backupSub skin _ hs hsb, hl]
          rw [hskin1]
          show createBackupGo rest
            (removeA skin (setA backupSub (Tree.dir (setA skin (Tree.dir s2) bs)) hs))
            = Except.error FsError.sourceNotDirectory
          have hbs' : ¬ backupSub = skin := fun he => hsb he.symm
          have hb2 : lookupA backupSub
              (removeA skin (setA backupSub (Tree.dir (setA skin (Tree.dir s2) bs)) hs))
              = some (Tree.dir (setA skin (Tree.dir s2) bs)) := by
            rw [lookupA_removeA_other skin backupSub _ hbs', lookupA_setA_self]
          have hrest_lookup : ∀ p : Str, p ∈ rest →
              lookupA p (removeA skin (setA backupSub (Tree.dir (setA skin (Tree.dir s2) bs)) hs))
                = lookupA p hs := by
            intro p hp
            have hps : ¬ p = skin := fun he =>
              (List.nodup_cons.mp hnd).1 (he ▸ hp)
            have hpb : ¬ p = backupSub := fun he =>
              hbp (he ▸ List.mem_cons_of_mem skin hp)
            rw [lookupA_removeA_other skin p _ hps, lookupA_setA_other backupSub p _ hs hpb]
          apply ih (removeA skin (setA backupSub (Tree.dir (setA skin (Tree.dir s2) bs)) hs))
            (setA skin (Tree.dir s2) bs)
            (List.nodup_cons.mp hnd).2
            (fun he => hbp (List.mem_cons_of_mem skin he))
            hb2
          · intro p hp
            have hps : ¬ p = skin := fun he =>
              (List.nodup_cons.mp hnd).1 (he ▸ hp)
            rw [lookupA_setA_other skin p _ bs hps]
            exact hdisj p (List.mem_cons_of_mem skin hp)
          · intro p hp
            rw [wfLookup, hrest_lookup p hp]
            have hx := hwf p (List.mem_cons_of_mem skin hp)
            rw [wfLookup] at hx
            exact hx
          · obtain ⟨s, hsmem, hsdir⟩ := hmiss
            have hssk : ¬ s = skin := by
              intro he
              subst he
              rw [hl] at hsdir
              cases hsdir
            have hsrest : s ∈ rest := by
              cases List.mem_cons.mp hsmem with
              | inl he => exact absurd he hssk
              | inr hx => exact hx
            exact ⟨s, hsrest, by rw [hrest_lookup s hsrest]; exact hsdir⟩

/-- C10: on the replace path with backup enabled, the backup step fails with
the source-is-not-a-directory error whenever some planned skin has no
existing directory in the host's skins tree (with the plan duplicate-free as
extraction guarantees, no planned skin named `@Backup`, no pre-existing
`@Backup` folder, and well-formed existing skin directories); and a run whose
backup stage fails on the non-merge path with backup enabled exits with
failure without executing the skin-install stage — so a first-time install
with backup enabled aborts instead of installing the skin. -/
theorem create_backup_missing_skin_aborts :
    (∀ (plan : List Str) (hostSkins : Entries),
        plan.Nodup → backupSub ∉ plan →
        lookupA backupSub hostSkins = none →
        (∀ p ∈ plan, wfLookup p hostSkins = true) →
        (∃ s ∈ plan, isDirO (lookupA s hostSkins) = false) →
        create_backup plan hostSkins = Except.error FsError.sourceNotDirectory)
    ∧ (∀ kv sf ri so ex oo co po lo ko mo sk cl : Bool,
        (mainRun kv false sf ri so ex oo false co po lo ko mo false sk cl).1 = false
          ∧ (mainRun kv false sf ri so ex oo false co po lo ko mo false sk cl).2.count
              Stage.skins = 0) := by
  constructor
  · intro plan hostSkins hnd hbp hbak hwf hmiss
    have hfalse : isDirO (lookupA backupSub hostSkins) = false := by
      rw [hbak]
      rfl
    simp only [create_backup]
    rw [hfalse, hbak]
    show createBackupGo plan (setA backupSub (Tree.dir Entries.nil) hostSkins)
      = Except.error FsError.sourceNotDirectory
    apply createBackupGo_missing plan _ Entries.nil hnd hbp (lookupA_setA_self _ _ _)
    · intro p _
      rfl
    · intro p hp
      have hpb : ¬ p = backupSub := fun he => hbp (he ▸ hp)
      rw [wfLookup, lookupA_setA_other backupSub p _ hostSkins hpb]
      have hx := hwf p hp
      rw [wfLookup] at hx
      exact hx
    · obtain ⟨s, hsmem, hsdir⟩ := hmiss
      have hsb : ¬ s = backupSub := fun he => hbp (he ▸ hsmem)
      exact ⟨s, hsmem,
        by rw [lookupA_setA_other backupSub s _ hostSkins hsb]; exact hsdir⟩
  · intro kv sf ri so ex oo co po lo ko mo sk cl
    cases sf <;> cases ri <;> cases so <;> cases ex <;> cases oo <;> cases co <;>
      cases po <;> cases lo <;> cases ko <;> exact ⟨rfl, rfl⟩

/-- C10, witness: a first-time install — the single planned skin `Demo` does
not exist in an empty host skins tree. -/
theorem create_backup_missing_skin_aborts_witness :
    create_backup ["Demo".toList] Entries.nil
      = Except.error FsError.sourceNotDirectory :=
  create_backup_missing_skin_aborts.1 ["Demo".toList] Entries.nil (by decide) (by decide)
    rfl (by decide) (by decide)

/-- C5, witness: the three-segment case at the concrete archive path
`Skins\Demo\demo.ini`. -/
theorem parse_zip_item_segment_cases_witness :
    parse_zip_item ("Skins\\Demo\\demo.ini".toList) =
      ((("Skins\\Demo\\demo.ini".toList).splitOn mainSeparator).getD 0 [],
        (("Skins\\Demo\\demo.ini".toList).splitOn mainSeparator).getD 1 [],
        extensionOf ((("Skins\\Demo\\demo.ini".toList).splitOn mainSeparator).getLastD [])) :=
  (parse_zip_item_segment_cases ("Skins\\Demo\\demo.ini".toList)).1 (by decide)

end RmSkinInstaller
